import Mathlib

/-!
Shallow embedding of the D2Q9 lattice-Boltzmann solver in `LBM.py` and of its
particle tracker, together with theorems settling the specification's claims.
The source stores populations, velocities and counters in `float64` numpy
arrays; the embedding uses `ℚ` so every identity is exact.  Grids are indexed
by `ZMod W × ZMod H`, which models `np.roll`'s periodic wrap-around and
numpy's negative-index wrapping.
-/

/-- The nine D2Q9 direction offset vectors `c`, in source order. -/
def c : Fin 9 → ℤ × ℤ
  | 0 => (0, 0)
  | 1 => (1, 0)
  | 2 => (0, 1)
  | 3 => (-1, 0)
  | 4 => (0, -1)
  | 5 => (1, 1)
  | 6 => (-1, 1)
  | 7 => (-1, -1)
  | 8 => (1, -1)

/-- The nine D2Q9 weights `w`, in source order. -/
def w : Fin 9 → ℚ
  | 0 => 4/9
  | 1 => 1/9
  | 2 => 1/9
  | 3 => 1/9
  | 4 => 1/9
  | 5 => 1/36
  | 6 => 1/36
  | 7 => 1/36
  | 8 => 1/36

/-- Lattice speed of sound squared, `self.cssq = 1/3` (set identically by both
initialisers `init_default` and `init_liddrivencavity`). -/
def cssq : ℚ := 1/3

/-- Expansion of a nine-direction sum into its nine summands. -/
theorem sum_univ_nine {M : Type} [AddCommMonoid M] (f : Fin 9 → M) :
    (∑ i, f i) = f 0 + f 1 + f 2 + f 3 + f 4 + f 5 + f 6 + f 7 + f 8 := by
  rw [Fin.sum_univ_castSucc, Fin.sum_univ_eight]
  rfl

/-- `LBM.get_equilibrium`, per cell and direction: the source computes
`udotu = ux*ux + uy*uy`, `udotc[:, i] = ux*c[i,0] + uy*c[i,1]` and then
`f_eq[:, i] = w[i]*rho*(1 + udotc/cssq + udotc**2/(2*cssq**2) - udotu/(2*cssq))`.
A pure function of its arguments (the only attribute read, `self.cssq`, is the
constant `1/3`). -/
def get_equilibrium (rho ux uy : ℚ) (i : Fin 9) : ℚ :=
  let udotu := ux * ux + uy * uy
  let udotc := ux * ((c i).1 : ℚ) + uy * ((c i).2 : ℚ)
  w i * rho * (1 + udotc / cssq + udotc ^ 2 / (2 * cssq ^ 2) - udotu / (2 * cssq))

/-- The equilibrium formula exactly as the specification writes it:
`f_eq[i] = w[i]·ρ·(1 + (c[i]·u)/cssq + (c[i]·u)²/(2·cssq²) − (u·u)/(2·cssq))`
with `c[i]·u` the dot product of direction `i`'s offset vector with `(ux, uy)`
and `u·u = ux² + uy²`. -/
def f_eq_spec (rho ux uy : ℚ) (i : Fin 9) : ℚ :=
  w i * rho *
    (1 + (((c i).1 : ℚ) * ux + ((c i).2 : ℚ) * uy) / cssq
       + (((c i).1 : ℚ) * ux + ((c i).2 : ℚ) * uy) ^ 2 / (2 * cssq ^ 2)
       - (ux * ux + uy * uy) / (2 * cssq))

/-- C1: for every density `ρ` and velocity `(ux, uy)`, `get_equilibrium`
returns, for each of the 9 directions, exactly the specification's formula
`w[i]·ρ·(1 + (c[i]·u)/cssq + (c[i]·u)²/(2·cssq²) − (u·u)/(2·cssq))` with
`cssq = 1/3`; being a plain function of `(ρ, ux, uy, i)`, the computation
depends only on its arguments. -/
theorem get_equilibrium_matches_spec (rho ux uy : ℚ) (i : Fin 9) :
    get_equilibrium rho ux uy i = f_eq_spec rho ux uy i := by
  unfold get_equilibrium f_eq_spec
  ring

set_option maxHeartbeats 2000000 in
/-- C2: at density `ρ = 1` and velocity magnitude at most `1/10` (well below
the lattice sound speed `sqrt(cssq) ≈ 0.577`), the nine equilibrium values are
all non-negative, and they sum exactly to `ρ` — an exact identity of the D2Q9
weights. -/
theorem equilibrium_nonneg_and_sums_to_rho (ux uy : ℚ)
    (h : ux ^ 2 + uy ^ 2 ≤ 1 / 100) :
    (∀ i, 0 ≤ get_equilibrium 1 ux uy i) ∧
      (∑ i, get_equilibrium 1 ux uy i) = 1 := by
  constructor
  · intro i
    fin_cases i <;>
      · simp only [get_equilibrium, w, c, cssq]
        push_cast
        ring_nf
        nlinarith [sq_nonneg ux, sq_nonneg uy, sq_nonneg (ux + uy),
          sq_nonneg (ux - uy), sq_nonneg (10 * ux - 1), sq_nonneg (10 * ux + 1),
          sq_nonneg (10 * uy - 1), sq_nonneg (10 * uy + 1),
          sq_nonneg (10 * (ux + uy) - 1), sq_nonneg (10 * (ux + uy) + 1),
          sq_nonneg (10 * (ux - uy) - 1), sq_nonneg (10 * (ux - uy) + 1)]
  · rw [sum_univ_nine]
    simp only [get_equilibrium, w, c, cssq]
    push_cast
    ring

/-- Witness for C2 at the concrete velocity `(1/20, -1/20)`. -/
theorem equilibrium_nonneg_and_sums_to_rho_witness :
    ((1/20 : ℚ) ^ 2 + (-(1/20) : ℚ) ^ 2 ≤ 1 / 100) ∧
      ((∀ i, 0 ≤ get_equilibrium 1 (1/20) (-(1/20)) i) ∧
        (∑ i, get_equilibrium 1 (1/20) (-(1/20)) i) = 1) :=
  ⟨by norm_num, equilibrium_nonneg_and_sums_to_rho (1/20) (-(1/20)) (by norm_num)⟩

/-!
## Fluid state and one LBM iteration

`LBM.lbm_iteration` mutates the model attributes `rho, ux, uy, f` in place;
the embedding threads an explicit state.  Wrap-around indexing of the
`width × height` grid is `ZMod W × ZMod H`.
-/

/-- The mutable simulation state touched by `LBM.lbm_iteration`:
the distribution `f`, the derived macroscopic fields `rho, ux, uy`, the three
boundary masks it reads, and the scalar parameters `tau` and `u_lb`. -/
structure FluidState (W H : ℕ) where
  f : ZMod W → ZMod H → Fin 9 → ℚ
  rho : ZMod W → ZMod H → ℚ
  ux : ZMod W → ZMod H → ℚ
  uy : ZMod W → ZMod H → ℚ
  wall : ZMod W → ZMod H → Bool
  inlet : ZMod W → ZMod H → Bool
  outlet : ZMod W → ZMod H → Bool
  tau : ℚ
  u_lb : ℚ

/-- `LBM.moment_update`, density: `rho = np.sum(f, 2)`. -/
def moment_rho {W H : ℕ} (f : ZMod W → ZMod H → Fin 9 → ℚ) (x : ZMod W)
    (y : ZMod H) : ℚ :=
  ∑ i, f x y i

/-- `LBM.moment_update`, x-velocity: `ux = np.sum(c[:, 0] * f, axis=2) / rho`. -/
def moment_ux {W H : ℕ} (f : ZMod W → ZMod H → Fin 9 → ℚ) (x : ZMod W)
    (y : ZMod H) : ℚ :=
  (∑ i, ((c i).1 : ℚ) * f x y i) / moment_rho f x y

/-- `LBM.moment_update`, y-velocity: `uy = np.sum(c[:, 1] * f, axis=2) / rho`. -/
def moment_uy {W H : ℕ} (f : ZMod W → ZMod H → Fin 9 → ℚ) (x : ZMod W)
    (y : ZMod H) : ℚ :=
  (∑ i, ((c i).2 : ℚ) * f x y i) / moment_rho f x y

/-- BGK collision: `self.f = self.f * (1 - (1 / self.tau)) + (1 / self.tau) * f_eq`. -/
def collide {W H : ℕ} (tau : ℚ) (f f_eq : ZMod W → ZMod H → Fin 9 → ℚ) :
    ZMod W → ZMod H → Fin 9 → ℚ :=
  fun x y i => f x y i * (1 - 1 / tau) + (1 / tau) * f_eq x y i

/-- `np.roll(g, v, axis=(0, 1))` on a periodic `W × H` grid:
the output at `(x, y)` is the input at `(x - v.1, y - v.2)`, wrapping. -/
def roll {W H : ℕ} (v : ℤ × ℤ) (g : ZMod W → ZMod H → ℚ) :
    ZMod W → ZMod H → ℚ :=
  fun x y => g (x - (v.1 : ZMod W)) (y - (v.2 : ZMod H))

/-- The streaming step: `self.f[:, :, i] = np.roll(self.f[:, :, i], c[i], axis=(0, 1))`
for each of the nine directions. -/
def stream {W H : ℕ} (f : ZMod W → ZMod H → Fin 9 → ℚ) :
    ZMod W → ZMod H → Fin 9 → ℚ :=
  fun x y i => roll (c i) (fun a b => f a b i) x y

/-- The bounce-back permutation `[0, 3, 4, 1, 2, 7, 8, 5, 6]` applied to the
populations of wall cells. -/
def bounce : Fin 9 → Fin 9
  | 0 => 0
  | 1 => 3
  | 2 => 4
  | 3 => 1
  | 4 => 2
  | 5 => 7
  | 6 => 8
  | 7 => 5
  | 8 => 6

/-- The bounce-back block of `LBM.lbm_iteration`: zero the velocity at wall
cells (`self.ux[self.wall] = 0`, `self.uy[self.wall] = 0`) and replace the
wall cells' populations by their `bounce` permutation
(`self.f[self.wall, :] = self.f[self.wall, :][:, [0, 3, 4, 1, 2, 7, 8, 5, 6]]`). -/
def bounce_back {W H : ℕ} (s : FluidState W H) : FluidState W H :=
  { s with
    ux := fun x y => if s.wall x y then 0 else s.ux x y
    uy := fun x y => if s.wall x y then 0 else s.uy x y
    f := fun x y i => if s.wall x y then s.f x y (bounce i) else s.f x y i }

/-- The default `LBM.inlet_handler`: overwrite the populations of inlet cells
with the equilibrium at density 1 and velocity `(model.u_lb, 0)`. -/
def inlet_step {W H : ℕ} (s : FluidState W H) : FluidState W H :=
  { s with
    f := fun x y i =>
      if s.inlet x y then get_equilibrium 1 s.u_lb 0 i else s.f x y i }

/-- The default `LBM.outlet_handler`: overwrite the populations of outlet
cells with the equilibrium at the current local density and velocity. -/
def outlet_step {W H : ℕ} (s : FluidState W H) : FluidState W H :=
  { s with
    f := fun x y i =>
      if s.outlet x y then
        get_equilibrium (s.rho x y) (s.ux x y) (s.uy x y) i
      else s.f x y i }

/-- The fresh equilibrium field an iteration computes from the moments of the
current distribution. -/
def iter_feq {W H : ℕ} (s : FluidState W H) (x : ZMod W) (y : ZMod H)
    (i : Fin 9) : ℚ :=
  get_equilibrium (moment_rho s.f x y) (moment_ux s.f x y) (moment_uy s.f x y) i

/-- First index of the minimum of `g` over `0, …, n`, scanning left to right
and keeping the earlier index on ties — `np.argmin` on the flattened array. -/
def argminUpTo (g : ℕ → ℚ) : ℕ → ℕ
  | 0 => 0
  | n + 1 => if g (n + 1) < g (argminUpTo g n) then n + 1 else argminUpTo g n

theorem argminUpTo_le (g : ℕ → ℚ) (n : ℕ) : argminUpTo g n ≤ n := by
  induction n with
  | zero => simp [argminUpTo]
  | succ n ih =>
    unfold argminUpTo
    split
    · exact Nat.le_refl _
    · exact Nat.le_succ_of_le ih

theorem argminUpTo_min (g : ℕ → ℚ) (n : ℕ) :
    ∀ k ≤ n, g (argminUpTo g n) ≤ g k := by
  induction n with
  | zero =>
    intro k hk
    simp only [Nat.le_zero] at hk
    simp [argminUpTo, hk]
  | succ n ih =>
    intro k hk
    unfold argminUpTo
    split
    · rename_i hlt
      rcases Nat.lt_succ_iff_lt_or_eq.mp (Nat.lt_succ_of_le hk) with h | h
      · exact le_trans (le_of_lt hlt) (ih k (Nat.lt_succ_iff.mp h))
      · exact le_of_eq (congrArg g h.symm)
    · rename_i hge
      rcases Nat.lt_succ_iff_lt_or_eq.mp (Nat.lt_succ_of_le hk) with h | h
      · exact ih k (Nat.lt_succ_iff.mp h)
      · rw [h]
        exact le_of_not_lt hge

/-- Flattened (C-order) view of an equilibrium field of shape `(W, H, 9)`. -/
def flatFeq {W H : ℕ} (fe : ZMod W → ZMod H → Fin 9 → ℚ) (k : ℕ) : ℚ :=
  fe ((k / (H * 9) : ℕ) : ZMod W) ((k / 9 % H : ℕ) : ZMod H)
    ⟨k % 9, Nat.mod_lt _ (by norm_num)⟩

/-- `np.unravel_index(k, (W, H, 9))`: the index triple the abort message
interpolates. -/
def unravel (H k : ℕ) : ℕ × ℕ × ℕ :=
  (k / (H * 9), k / 9 % H, k % 9)

/-- The numeric data interpolated into the abort message
`"Simulation violated stability condition at {...}"`: exactly the
`unravel_index` triple, nothing else. -/
def abortReport (t : ℕ × ℕ × ℕ) : List ℚ :=
  [(t.1 : ℚ), (t.2.1 : ℚ), (t.2.2 : ℚ)]

/-- One call of `LBM.lbm_iteration`, in source order: moment update (mutating
`rho, ux, uy`), fresh equilibrium, the stability assert (`np.min(f_eq) >= 0`,
reporting `np.unravel_index(np.argmin(f_eq), f_eq.shape)` on failure — the
first component is `some` of that triple and the returned state keeps the
already-updated moments with `f` untouched), then collision, streaming,
bounce-back, and the default inlet and outlet handlers. -/
def lbm_iteration {W H : ℕ} (s : FluidState W H) :
    Option (ℕ × ℕ × ℕ) × FluidState W H :=
  let s1 : FluidState W H :=
    { s with rho := moment_rho s.f, ux := moment_ux s.f, uy := moment_uy s.f }
  let m := argminUpTo (flatFeq (iter_feq s)) (W * H * 9 - 1)
  if flatFeq (iter_feq s) m < 0 then
    (some (unravel H m), s1)
  else
    (none,
      outlet_step (inlet_step (bounce_back
        { s1 with f := stream (collide s.tau s1.f (iter_feq s)) })))

/-- Total mass of a distribution field: the sum over all cells and directions. -/
def grid_mass {W H : ℕ} [NeZero W] [NeZero H]
    (f : ZMod W → ZMod H → Fin 9 → ℚ) : ℚ :=
  ∑ x, ∑ y, ∑ i, f x y i

/-- Total density of a state, summed over the whole grid. -/
def total_mass {W H : ℕ} [NeZero W] [NeZero H] (s : FluidState W H) : ℚ :=
  grid_mass s.f

/-- C4: after the wall bounce-back block, every wall cell holds its
pre-enforcement populations permuted by the opposite-direction map (pairs
`(1,3)`, `(2,4)`, `(5,7)`, `(6,8)` swapped, `0` fixed), its velocity is
exactly `(0, 0)`, and non-wall cells are untouched by this step. -/
theorem bounce_back_spec {W H : ℕ} (s : FluidState W H) (x : ZMod W)
    (y : ZMod H) (i : Fin 9) :
    ((bounce_back s).f x y i
        = (if s.wall x y then s.f x y (bounce i) else s.f x y i))
    ∧ ((bounce_back s).ux x y = (if s.wall x y then 0 else s.ux x y))
    ∧ ((bounce_back s).uy x y = (if s.wall x y then 0 else s.uy x y))
    ∧ bounce 0 = 0 ∧ bounce 1 = 3 ∧ bounce 3 = 1 ∧ bounce 2 = 4
    ∧ bounce 4 = 2 ∧ bounce 5 = 7 ∧ bounce 7 = 5 ∧ bounce 6 = 8
    ∧ bounce 8 = 6 :=
  ⟨rfl, rfl, rfl, rfl, rfl, rfl, rfl, rfl, rfl, rfl, rfl, rfl⟩

/-- C5: streaming shifts each direction's population field by that direction's
offset vector with periodic wrap-around, and rolling any field by `v` and then
by `-v` restores it exactly. -/
theorem stream_shifts_and_roll_roundtrip {W H : ℕ}
    (f : ZMod W → ZMod H → Fin 9 → ℚ) (g : ZMod W → ZMod H → ℚ)
    (v : ℤ × ℤ) (i : Fin 9) :
    ((fun x y => stream f x y i) = roll (c i) (fun x y => f x y i))
    ∧ roll (-v.1, -v.2) (roll v g) = g := by
  constructor
  · rfl
  · funext x y
    show g (x - ((-v.1 : ℤ) : ZMod W) - (v.1 : ZMod W))
        (y - ((-v.2 : ℤ) : ZMod H) - (v.2 : ZMod H)) = g x y
    have hx : x - ((-v.1 : ℤ) : ZMod W) - (v.1 : ZMod W) = x := by
      push_cast
      ring
    have hy : y - ((-v.2 : ℤ) : ZMod H) - (v.2 : ZMod H) = y := by
      push_cast
      ring
    rw [hx, hy]

/-!
## Mass conservation (C6)
-/

/-- The nine equilibrium populations of a cell always sum to its density:
the D2Q9 weight identities make the velocity terms cancel exactly. -/
theorem sum_get_equilibrium (rho ux uy : ℚ) :
    (∑ i, get_equilibrium rho ux uy i) = rho := by
  rw [sum_univ_nine]
  simp only [get_equilibrium, w, c, cssq]
  push_cast
  ring

/-- BGK collision conserves the mass of any cell whose equilibrium has the
same mass, for every relaxation time. -/
theorem collide_cell_mass {W H : ℕ} (tau : ℚ)
    (f fe : ZMod W → ZMod H → Fin 9 → ℚ) (x : ZMod W) (y : ZMod H)
    (h : (∑ i, fe x y i) = ∑ i, f x y i) :
    (∑ i, collide tau f fe x y i) = ∑ i, f x y i := by
  simp only [collide]
  rw [Finset.sum_add_distrib, ← Finset.sum_mul, ← Finset.mul_sum, h]
  ring

/-- The bounce-back permutation of a cell's populations preserves their sum. -/
theorem sum_bounce (g : Fin 9 → ℚ) : (∑ i, g (bounce i)) = ∑ i, g i := by
  rw [sum_univ_nine, sum_univ_nine]
  simp only [bounce]
  ring

theorem grid_mass_eq_sum_dirs {W H : ℕ} [NeZero W] [NeZero H]
    (t : ZMod W → ZMod H → Fin 9 → ℚ) :
    grid_mass t = ∑ i, ∑ x, ∑ y, t x y i := by
  unfold grid_mass
  calc (∑ x, ∑ y, ∑ i, t x y i)
      = ∑ x, ∑ i, ∑ y, t x y i :=
        Finset.sum_congr rfl fun x _ => Finset.sum_comm
    _ = ∑ i, ∑ x, ∑ y, t x y i := Finset.sum_comm

/-- Streaming is a permutation of each directional field, so it preserves
total mass. -/
theorem grid_mass_stream {W H : ℕ} [NeZero W] [NeZero H]
    (f : ZMod W → ZMod H → Fin 9 → ℚ) :
    grid_mass (stream f) = grid_mass f := by
  rw [grid_mass_eq_sum_dirs, grid_mass_eq_sum_dirs]
  refine Finset.sum_congr rfl fun i _ => ?_
  have inner : ∀ x : ZMod W,
      (∑ y, f x (y - ((c i).2 : ZMod H)) i) = ∑ y, f x y i := fun x =>
    Equiv.sum_comp (Equiv.subRight ((c i).2 : ZMod H)) (fun y => f x y i)
  calc (∑ x, ∑ y, stream f x y i)
      = ∑ x, ∑ y, f (x - ((c i).1 : ZMod W)) (y - ((c i).2 : ZMod H)) i := rfl
    _ = ∑ x, ∑ y, f (x - ((c i).1 : ZMod W)) y i :=
        Finset.sum_congr rfl fun x _ => inner _
    _ = ∑ x, ∑ y, f x y i :=
        Equiv.sum_comp (Equiv.subRight ((c i).1 : ZMod W))
          (fun x => ∑ y, f x y i)

/-- Bounce-back permutes populations within each wall cell, so it preserves
total mass. -/
theorem grid_mass_bounce_back {W H : ℕ} [NeZero W] [NeZero H]
    (s : FluidState W H) :
    grid_mass (bounce_back s).f = grid_mass s.f := by
  unfold grid_mass
  refine Finset.sum_congr rfl fun x _ => Finset.sum_congr rfl fun y _ => ?_
  show (∑ i, if s.wall x y then s.f x y (bounce i) else s.f x y i)
      = ∑ i, s.f x y i
  by_cases hw : s.wall x y
  · simp only [hw, if_true]
    exact sum_bounce (fun i => s.f x y i)
  · simp [hw]

/-- With no inlet cells, the default inlet handler leaves `f` unchanged. -/
theorem inlet_step_f_of_no_inlet {W H : ℕ} (s : FluidState W H)
    (h : ∀ x y, s.inlet x y = false) : (inlet_step s).f = s.f := by
  funext x y i
  show (if s.inlet x y then get_equilibrium 1 s.u_lb 0 i else s.f x y i)
      = s.f x y i
  rw [h x y]
  simp

/-- With no outlet cells, the default outlet handler leaves `f` unchanged. -/
theorem outlet_step_f_of_no_outlet {W H : ℕ} (s : FluidState W H)
    (h : ∀ x y, s.outlet x y = false) : (outlet_step s).f = s.f := by
  funext x y i
  show (if s.outlet x y then
      get_equilibrium (s.rho x y) (s.ux x y) (s.uy x y) i else s.f x y i)
      = s.f x y i
  rw [h x y]
  simp

/-- Per-cell mass of the freshly computed equilibrium equals the cell's mass. -/
theorem iter_feq_cell_mass {W H : ℕ} (s : FluidState W H) (x : ZMod W)
    (y : ZMod H) : (∑ i, iter_feq s x y i) = ∑ i, s.f x y i := by
  unfold iter_feq
  rw [sum_get_equilibrium]
  rfl

/-- C6: with every inlet and outlet mask entry false and the default
handlers, a non-aborting `lbm_iteration` leaves the total density — the sum
of `f` over all cells and directions — exactly unchanged: collision conserves
per-cell mass, streaming and bounce-back are permutations, and the handlers
are no-ops over empty masks. -/
theorem mass_conserved_no_inlet_outlet {W H : ℕ} [NeZero W] [NeZero H]
    (s : FluidState W H)
    (hin : ∀ x y, s.inlet x y = false)
    (hout : ∀ x y, s.outlet x y = false)
    (hok : (lbm_iteration s).1 = none) :
    total_mass (lbm_iteration s).2 = total_mass s := by
  have hc : ¬ flatFeq (iter_feq s)
      (argminUpTo (flatFeq (iter_feq s)) (W * H * 9 - 1)) < 0 := by
    intro hlt
    have : (lbm_iteration s).1
        = some (unravel H (argminUpTo (flatFeq (iter_feq s)) (W * H * 9 - 1))) := by
      unfold lbm_iteration
      rw [if_pos hlt]
    rw [hok] at this
    exact Option.noConfusion this
  have hres : (lbm_iteration s).2
      = outlet_step (inlet_step (bounce_back
          { s with
              rho := moment_rho s.f
              ux := moment_ux s.f
              uy := moment_uy s.f
              f := stream (collide s.tau s.f (iter_feq s)) })) := by
    unfold lbm_iteration
    rw [if_neg hc]
  have hmask1 : ∀ x y, (inlet_step (bounce_back
      { s with
          rho := moment_rho s.f
          ux := moment_ux s.f
          uy := moment_uy s.f
          f := stream (collide s.tau s.f (iter_feq s)) })).outlet x y = false :=
    hout
  have hmask2 : ∀ x y, (bounce_back
      { s with
          rho := moment_rho s.f
          ux := moment_ux s.f
          uy := moment_uy s.f
          f := stream (collide s.tau s.f (iter_feq s)) }).inlet x y = false :=
    hin
  rw [hres]
  unfold total_mass
  rw [outlet_step_f_of_no_outlet _ hmask1, inlet_step_f_of_no_inlet _ hmask2,
    grid_mass_bounce_back]
  show grid_mass (stream (collide s.tau s.f (iter_feq s))) = grid_mass s.f
  rw [grid_mass_stream]
  unfold grid_mass
  exact Finset.sum_congr rfl fun x _ => Finset.sum_congr rfl fun y _ =>
    collide_cell_mass s.tau s.f (iter_feq s) x y (iter_feq_cell_mass s x y)

/-- A quiescent one-cell state with no inlet/outlet cells: `f = w`, so the
equilibrium is `w` itself and no abort occurs. -/
def calmState : FluidState 1 1 where
  f := fun _ _ i => w i
  rho := fun _ _ => 1
  ux := fun _ _ => 0
  uy := fun _ _ => 0
  wall := fun _ _ => false
  inlet := fun _ _ => false
  outlet := fun _ _ => false
  tau := 1
  u_lb := 0

set_option maxRecDepth 100000 in
/-- Witness for C6 on the concrete quiescent state. -/
theorem mass_conserved_no_inlet_outlet_witness :
    (∀ x y : ZMod 1, calmState.inlet x y = false)
    ∧ (∀ x y : ZMod 1, calmState.outlet x y = false)
    ∧ (lbm_iteration calmState).1 = none
    ∧ total_mass (lbm_iteration calmState).2 = total_mass calmState :=
  ⟨fun _ _ => rfl, fun _ _ => rfl, by with_unfolding_all rfl,
    mass_conserved_no_inlet_outlet calmState (fun _ _ => rfl) (fun _ _ => rfl)
      (by with_unfolding_all rfl)⟩

/-!
## The stability abort (C3)
-/

/-- Flattened index of a grid coordinate: `flatFeq` at the encoded index reads
the field at that coordinate. -/
theorem flatFeq_encode {W H : ℕ} [NeZero W] [NeZero H]
    (fe : ZMod W → ZMod H → Fin 9 → ℚ) (x : ZMod W) (y : ZMod H) (i : Fin 9) :
    flatFeq fe (9 * (x.val * H + y.val) + i.val) = fe x y i := by
  have h9 : (0:ℕ) < 9 := by norm_num
  have hH : 0 < H := Nat.pos_of_ne_zero (NeZero.ne H)
  have hi9 : i.val < 9 := i.isLt
  have hyH : y.val < H := ZMod.val_lt y
  have hdiv9 : (9 * (x.val * H + y.val) + i.val) / 9 = x.val * H + y.val := by
    rw [Nat.mul_add_div h9, Nat.div_eq_of_lt hi9, Nat.add_zero]
  have hmod9 : (9 * (x.val * H + y.val) + i.val) % 9 = i.val := by
    rw [Nat.mul_add_mod, Nat.mod_eq_of_lt hi9]
  have e1 : (9 * (x.val * H + y.val) + i.val) / (H * 9) = x.val := by
    rw [Nat.mul_comm H 9, ← Nat.div_div_eq_div_mul, hdiv9, Nat.mul_comm x.val H,
      Nat.mul_add_div hH, Nat.div_eq_of_lt hyH, Nat.add_zero]
  have e2 : (9 * (x.val * H + y.val) + i.val) / 9 % H = y.val := by
    rw [hdiv9, Nat.mul_comm x.val H, Nat.mul_add_mod, Nat.mod_eq_of_lt hyH]
  unfold flatFeq
  simp only [e1, e2, hmod9, Fin.eta]
  rw [ZMod.natCast_rightInverse x, ZMod.natCast_rightInverse y]

/-- The encoded index of any grid coordinate is below `W * H * 9`. -/
theorem encode_lt {W H : ℕ} [NeZero W] [NeZero H] (x : ZMod W) (y : ZMod H)
    (i : Fin 9) : 9 * (x.val * H + y.val) + i.val < W * H * 9 := by
  have hxW : x.val < W := ZMod.val_lt x
  have hyH : y.val < H := ZMod.val_lt y
  have h1 : x.val * H + y.val + 1 ≤ W * H := by
    calc x.val * H + y.val + 1 ≤ x.val * H + H := by omega
    _ = (x.val + 1) * H := by ring
    _ ≤ W * H := Nat.mul_le_mul_right H hxW
  calc 9 * (x.val * H + y.val) + i.val
      < 9 * (x.val * H + y.val + 1) := by omega
    _ ≤ 9 * (W * H) := Nat.mul_le_mul_left 9 h1
    _ = W * H * 9 := by ring

/-- `lbm_iteration` aborts exactly when some fresh equilibrium component is
negative. -/
theorem lbm_abort_iff {W H : ℕ} [NeZero W] [NeZero H] (s : FluidState W H) :
    (lbm_iteration s).1.isSome = true ↔ ∃ x y i, iter_feq s x y i < 0 := by
  by_cases hlt : flatFeq (iter_feq s)
      (argminUpTo (flatFeq (iter_feq s)) (W * H * 9 - 1)) < 0
  · have h1 : (lbm_iteration s).1 = some (unravel H
        (argminUpTo (flatFeq (iter_feq s)) (W * H * 9 - 1))) := by
      unfold lbm_iteration
      rw [if_pos hlt]
    rw [h1]
    simp only [Option.isSome_some, true_iff]
    exact ⟨_, _, _, hlt⟩
  · have h1 : (lbm_iteration s).1 = none := by
      unfold lbm_iteration
      rw [if_neg hlt]
    rw [h1]
    simp only [Option.isSome_none, Bool.false_eq_true, false_iff]
    rintro ⟨x, y, i, hneg⟩
    apply hlt
    have hb : 9 * (x.val * H + y.val) + i.val ≤ W * H * 9 - 1 := by
      have := encode_lt x y i
      omega
    calc flatFeq (iter_feq s)
          (argminUpTo (flatFeq (iter_feq s)) (W * H * 9 - 1))
        ≤ flatFeq (iter_feq s) (9 * (x.val * H + y.val) + i.val) :=
          argminUpTo_min _ _ _ hb
      _ = iter_feq s x y i := flatFeq_encode (iter_feq s) x y i
      _ < 0 := hneg

/-- C3 (amended): `lbm_iteration` aborts iff some freshly computed
equilibrium component is negative; the abort message's interpolated data is
exactly the `unravel_index` triple, which names an offending cell coordinate
pair and direction index (but not the field values there); the abort happens
before collision and streaming, so `f` is unchanged — but `rho`, `ux`, `uy`
have already been overwritten with the freshly extracted moments. -/
theorem lbm_abort_amended {W H : ℕ} [NeZero W] [NeZero H] (s : FluidState W H) :
    ((lbm_iteration s).1.isSome = true ↔ ∃ x y i, iter_feq s x y i < 0)
    ∧ ∀ t, (lbm_iteration s).1 = some t →
        ((∃ (x : ZMod W) (y : ZMod H) (i : Fin 9),
            abortReport t = [(x.val : ℚ), (y.val : ℚ), (i.val : ℚ)]
            ∧ iter_feq s x y i < 0)
          ∧ (lbm_iteration s).2.f = s.f
          ∧ (lbm_iteration s).2.rho = moment_rho s.f
          ∧ (lbm_iteration s).2.ux = moment_ux s.f
          ∧ (lbm_iteration s).2.uy = moment_uy s.f) := by
  refine ⟨lbm_abort_iff s, fun t ht => ?_⟩
  by_cases hlt : flatFeq (iter_feq s)
      (argminUpTo (flatFeq (iter_feq s)) (W * H * 9 - 1)) < 0
  · have h1 : (lbm_iteration s).1 = some (unravel H
        (argminUpTo (flatFeq (iter_feq s)) (W * H * 9 - 1))) := by
      unfold lbm_iteration
      rw [if_pos hlt]
    have h2 : (lbm_iteration s).2 = { s with
        rho := moment_rho s.f
        ux := moment_ux s.f
        uy := moment_uy s.f } := by
      unfold lbm_iteration
      rw [if_pos hlt]
    obtain rfl : t = unravel H
        (argminUpTo (flatFeq (iter_feq s)) (W * H * 9 - 1)) := by
      have := h1.symm.trans ht
      exact (Option.some_inj.mp this).symm
    have hH : 0 < H := Nat.pos_of_ne_zero (NeZero.ne H)
    have hW : 0 < W := Nat.pos_of_ne_zero (NeZero.ne W)
    have hmlt : argminUpTo (flatFeq (iter_feq s)) (W * H * 9 - 1) < W * H * 9 := by
      have h1 := argminUpTo_le (flatFeq (iter_feq s)) (W * H * 9 - 1)
      have h2 : 0 < W * H * 9 := by positivity
      omega
    have hx : argminUpTo (flatFeq (iter_feq s)) (W * H * 9 - 1) / (H * 9) < W := by
      rw [Nat.div_lt_iff_lt_mul (by positivity)]
      calc argminUpTo (flatFeq (iter_feq s)) (W * H * 9 - 1)
          < W * H * 9 := hmlt
        _ = W * (H * 9) := by ring
    refine ⟨⟨((argminUpTo (flatFeq (iter_feq s)) (W * H * 9 - 1) / (H * 9) : ℕ) : ZMod W),
        ((argminUpTo (flatFeq (iter_feq s)) (W * H * 9 - 1) / 9 % H : ℕ) : ZMod H),
        ⟨argminUpTo (flatFeq (iter_feq s)) (W * H * 9 - 1) % 9,
          Nat.mod_lt _ (by norm_num)⟩, ?_, hlt⟩, ?_, ?_, ?_, ?_⟩
    · show abortReport (unravel H _) = _
      unfold abortReport unravel
      have ex1 : (((argminUpTo (flatFeq (iter_feq s)) (W * H * 9 - 1) / (H * 9) : ℕ) : ZMod W)).val
          = argminUpTo (flatFeq (iter_feq s)) (W * H * 9 - 1) / (H * 9) := by
        rw [ZMod.val_natCast, Nat.mod_eq_of_lt hx]
      have ex2 : (((argminUpTo (flatFeq (iter_feq s)) (W * H * 9 - 1) / 9 % H : ℕ) : ZMod H)).val
          = argminUpTo (flatFeq (iter_feq s)) (W * H * 9 - 1) / 9 % H := by
        rw [ZMod.val_natCast, Nat.mod_eq_of_lt (Nat.mod_lt _ hH)]
      rw [ex1, ex2]
    · rw [h2]
    · rw [h2]
    · rw [h2]
    · rw [h2]
  · exfalso
    have : (lbm_iteration s).1 = none := by
      unfold lbm_iteration
      rw [if_neg hlt]
    rw [ht] at this
    exact Option.noConfusion this

/-- A one-cell state whose only nonzero population points in direction 1,
giving velocity 1 and several negative equilibrium components: the iteration
aborts on it. -/
def abortDemo : FluidState 1 1 where
  f := fun _ _ i => if i = 1 then 1 else 0
  rho := fun _ _ => 0
  ux := fun _ _ => 5
  uy := fun _ _ => 0
  wall := fun _ _ => false
  inlet := fun _ _ => false
  outlet := fun _ _ => false
  tau := 1
  u_lb := 0

set_option maxRecDepth 400000 in
/-- Counterexample to C3 as stated: on `abortDemo` the iteration aborts at
`(0, 0, 0)`, yet the simulation state is NOT unchanged — `ux` at the cell was
5 before the call and holds the freshly extracted moment 1 afterwards — and
the data interpolated into the abort message (the index triple `(0, 0, 0)`)
does not contain the field values at the offending point (`rho = 1`,
`ux = 1`). -/
theorem lbm_abort_claim_counterexample :
    (lbm_iteration abortDemo).1 = some (0, 0, 0)
    ∧ abortDemo.ux 0 0 = 5
    ∧ (lbm_iteration abortDemo).2.ux 0 0 = 1
    ∧ (lbm_iteration abortDemo).2.rho 0 0 = 1
    ∧ ((lbm_iteration abortDemo).2.ux 0 0) ∉ abortReport (0, 0, 0)
    ∧ ((lbm_iteration abortDemo).2.rho 0 0) ∉ abortReport (0, 0, 0) := by
  refine ⟨by with_unfolding_all rfl, rfl, by with_unfolding_all rfl,
    by with_unfolding_all rfl, ?_, ?_⟩
  · rw [show (lbm_iteration abortDemo).2.ux 0 0 = 1 from by with_unfolding_all rfl]
    norm_num [abortReport]
  · rw [show (lbm_iteration abortDemo).2.rho 0 0 = 1 from by with_unfolding_all rfl]
    norm_num [abortReport]

set_option maxRecDepth 400000 in
/-- Witness for the amended C3 statement at the concrete aborting state. -/
theorem lbm_abort_amended_witness :
    ((lbm_iteration abortDemo).1.isSome = true
        ↔ ∃ x y i, iter_feq abortDemo x y i < 0)
    ∧ ∀ t, (lbm_iteration abortDemo).1 = some t →
        ((∃ (x : ZMod 1) (y : ZMod 1) (i : Fin 9),
            abortReport t = [(x.val : ℚ), (y.val : ℚ), (i.val : ℚ)]
            ∧ iter_feq abortDemo x y i < 0)
          ∧ (lbm_iteration abortDemo).2.f = abortDemo.f
          ∧ (lbm_iteration abortDemo).2.rho = moment_rho abortDemo.f
          ∧ (lbm_iteration abortDemo).2.ux = moment_ux abortDemo.f
          ∧ (lbm_iteration abortDemo).2.uy = moment_uy abortDemo.f) :=
  lbm_abort_amended abortDemo

/-!
## Particle tracker (`LBM.update_particles`)

Counters are numpy float arrays in the source; they are `ℚ`-valued functions
here.  The random draw of `np.random.randint` is abstracted by an oracle of
naturals, reduced modulo the number of infected cells.
-/

/-- The module-level constant `susceptible_centroids` of `LBM.py`. -/
def susceptible_centroids : List (ℤ × ℤ) :=
  [(18, 93), (79, 80), (79, 51), (80, 26), (49, 5)]

/-- Python 3 `round` on a float coordinate: round half to even. -/
def pyRound (q : ℚ) : ℤ :=
  if Int.fract q < 1/2 then ⌊q⌋
  else if 1/2 < Int.fract q then ⌊q⌋ + 1
  else if 2 ∣ ⌊q⌋ then ⌊q⌋ else ⌊q⌋ + 1

/-- Python `int()` on a float: truncation toward zero. -/
def pyTrunc (q : ℚ) : ℤ :=
  if 0 ≤ q then ⌊q⌋ else -⌊-q⌋

/-- `np.sum((nodes - node)**2, axis=1)` for one centroid: squared Euclidean
distance between integer points. -/
def distSq (p q : ℤ × ℤ) : ℤ :=
  (p.1 - q.1) ^ 2 + (p.2 - q.2) ^ 2

/-- `np.argmin(dist_2)` over the centroid list: `none` models the exception
raised on an empty array (swallowed by the source's bare `except`), otherwise
the first index of minimal squared distance. -/
def closestIdx (nodes : List (ℤ × ℤ)) (node : ℤ × ℤ) : Option ℕ :=
  if nodes.isEmpty then none
  else some (argminUpTo
    (fun k => ((distSq (nodes.getD k (0, 0)) node : ℤ) : ℚ)) (nodes.length - 1))

/-- Mutable particle-tracking state: `particle_locations`, `particle_nr`, the
`particles_exited` set, and the `infections` / `removed` counter arrays. -/
structure PState where
  locations : ℕ → ℚ × ℚ
  particle_nr : ℕ
  exited : ℕ → Bool
  infections : ℕ → ℕ → ℚ
  removed : ℕ → ℚ

/-- The read-only inputs of `update_particles`: masks, the velocity field the
interpolators are built from, the map scaling factor, the spawn policy, and
the centroid list. -/
structure PEnv (W H : ℕ) where
  susceptible : ZMod W → ZMod H → Bool
  outlet : ZMod W → ZMod H → Bool
  infected : ZMod W → ZMod H → Bool
  ux : ZMod W → ZMod H → ℚ
  uy : ZMod W → ZMod H → ℚ
  map_scaling_factor : ℚ
  spawn_rate : ℕ
  spawn_amount_at_rate : ℕ
  num_particles : ℕ
  centroids : List (ℤ × ℤ)

/-- The cells of the grid in C (row-major) order, as `np.where` enumerates
them. -/
def cellList (W H : ℕ) : List (ZMod W × ZMod H) :=
  (List.range W).flatMap fun x => (List.range H).map fun y => ((x : ZMod W), (y : ZMod H))

/-- `np.where(self.infected)`: the infected cells in C order. -/
def infectedList {W H : ℕ} (infected : ZMod W → ZMod H → Bool) :
    List (ZMod W × ZMod H) :=
  (cellList W H).filter fun p => infected p.1 p.2

/-- One spawn attempt: when under the particle cap, place particle
`particle_nr` at a drawn infected cell (the `np.random.randint` draw is the
oracle value `r` mod the number of infected cells) and bump `particle_nr`.
With no infected cells the source would raise in `np.random.randint`; that
unreachable case is modelled as a no-op. -/
def spawnOne {W H : ℕ} (env : PEnv W H) (r : ℕ) (s : PState) : PState :=
  if s.particle_nr < env.num_particles ∧ infectedList env.infected ≠ [] then
    { s with
      locations := fun j =>
        if j = s.particle_nr then
          ((((infectedList env.infected).getD
              (r % (infectedList env.infected).length) (0, 0)).1.val : ℚ),
           (((infectedList env.infected).getD
              (r % (infectedList env.infected).length) (0, 0)).2.val : ℚ))
        else s.locations j
      particle_nr := s.particle_nr + 1 }
  else s

/-- Bilinear interpolation of a grid field at a continuous point, as
`scipy.interpolate.RegularGridInterpolator` evaluates it on the integer grid
`arange(W) × arange(H)` (reference cell clamped to the grid for edge points). -/
def interp {W H : ℕ} (g : ZMod W → ZMod H → ℚ) (x y : ℚ) : ℚ :=
  let x0 : ℤ := max 0 (min ⌊x⌋ ((W : ℤ) - 2))
  let y0 : ℤ := max 0 (min ⌊y⌋ ((H : ℤ) - 2))
  let tx : ℚ := x - (x0 : ℚ)
  let ty : ℚ := y - (y0 : ℚ)
  (1 - tx) * (1 - ty) * g (x0 : ZMod W) (y0 : ZMod H)
    + tx * (1 - ty) * g ((x0 + 1 : ℤ) : ZMod W) (y0 : ZMod H)
    + (1 - tx) * ty * g (x0 : ZMod W) ((y0 + 1 : ℤ) : ZMod H)
    + tx * ty * g ((x0 + 1 : ℤ) : ZMod W) ((y0 + 1 : ℤ) : ZMod H)

/-- The body of the per-particle loop of `update_particles`, for particle `i`:
skip terminal particles; else, if the rounded cell is susceptible, add the
nearest-centroid infection (when the lookup does not fail), mark the particle
exited and move it to `(0, 0)`; else, if the rounded cell is an outlet, bump
`removed[i]`, mark it exited and move it to `(0, 0)`; otherwise advect by the
scaled interpolated velocity and clamp into
`[0, width - 1] × [0, height - 1]`. -/
def stepParticle {W H : ℕ} (env : PEnv W H) (s : PState) (i : ℕ) : PState :=
  if s.exited i then s
  else if env.susceptible ((pyRound (s.locations i).1 : ℤ) : ZMod W)
      ((pyRound (s.locations i).2 : ℤ) : ZMod H) then
    match closestIdx env.centroids
        (pyTrunc (s.locations i).1, pyTrunc (s.locations i).2) with
    | some cl =>
      { s with
        infections := fun c2 j =>
          if c2 = cl ∧ j = i then s.infections c2 j + 1 else s.infections c2 j
        exited := fun j => if j = i then true else s.exited j
        locations := fun j => if j = i then (0, 0) else s.locations j }
    | none =>
      { s with
        exited := fun j => if j = i then true else s.exited j
        locations := fun j => if j = i then (0, 0) else s.locations j }
  else if env.outlet ((pyRound (s.locations i).1 : ℤ) : ZMod W)
      ((pyRound (s.locations i).2 : ℤ) : ZMod H) then
    { s with
      removed := fun j => if j = i then s.removed j + 1 else s.removed j
      exited := fun j => if j = i then true else s.exited j
      locations := fun j => if j = i then (0, 0) else s.locations j }
  else
    { s with
      locations := fun j =>
        if j = i then
          (min (max 0 ((s.locations i).1 + env.map_scaling_factor
              * interp env.ux (s.locations i).1 (s.locations i).2)) ((W : ℚ) - 1),
           min (max 0 ((s.locations i).2 + env.map_scaling_factor
              * interp env.uy (s.locations i).1 (s.locations i).2)) ((H : ℚ) - 1))
        else s.locations j }

/-- The spawn phase of `update_particles`: every `spawn_rate` iterations,
`spawn_amount_at_rate` spawn attempts. -/
def spawnPhase {W H : ℕ} (env : PEnv W H) (rands : ℕ → ℕ) (it : ℕ)
    (s : PState) : PState :=
  if it % env.spawn_rate = 0 then
    (List.range env.spawn_amount_at_rate).foldl
      (fun st j => spawnOne env (rands j) st) s
  else s

/-- One call of `LBM.update_particles(it)`: the spawn phase, then the
per-particle loop over `range(particle_nr)`. -/
def update_particles {W H : ℕ} (env : PEnv W H) (rands : ℕ → ℕ) (it : ℕ)
    (s : PState) : PState :=
  (List.range (spawnPhase env rands it s).particle_nr).foldl (stepParticle env)
    (spawnPhase env rands it s)

/-- `k` successive calls of `update_particles`, starting at iteration `it0`,
with oracle `rr it` for iteration `it`. -/
def runParticles {W H : ℕ} (env : PEnv W H) (rr : ℕ → ℕ → ℕ) :
    PState → ℕ → ℕ → PState
  | s, _, 0 => s
  | s, it0, k + 1 =>
      runParticles env rr (update_particles env (rr it0) it0 s) (it0 + 1) k

/-!
## Particle lemmas
-/

theorem argminUpTo_first (g : ℕ → ℚ) (n : ℕ) :
    ∀ k < argminUpTo g n, g (argminUpTo g n) < g k := by
  induction n with
  | zero =>
    intro k hk
    simp [argminUpTo] at hk
  | succ n ih =>
    intro k hk
    unfold argminUpTo at hk ⊢
    split at hk
    · rename_i hlt
      rw [if_pos hlt]
      exact lt_of_lt_of_le hlt (argminUpTo_min g n k (Nat.lt_succ_iff.mp hk))
    · rename_i hge
      rw [if_neg hge]
      exact ih k hk

/-- `closestIdx` on a nonempty centroid list returns the first index of
minimal squared distance. -/
theorem closestIdx_spec (nodes : List (ℤ × ℤ)) (node : ℤ × ℤ)
    (hne : nodes ≠ []) :
    ∃ cl, closestIdx nodes node = some cl
      ∧ cl < nodes.length
      ∧ (∀ k < nodes.length,
          distSq (nodes.getD cl (0, 0)) node ≤ distSq (nodes.getD k (0, 0)) node)
      ∧ (∀ k < cl,
          distSq (nodes.getD cl (0, 0)) node < distSq (nodes.getD k (0, 0)) node) := by
  have hlen : 0 < nodes.length := List.length_pos.mpr hne
  have hemp : nodes.isEmpty = false := by
    cases nodes with
    | nil => exact absurd rfl hne
    | cons q qs => rfl
  refine ⟨argminUpTo
      (fun k => ((distSq (nodes.getD k (0, 0)) node : ℤ) : ℚ)) (nodes.length - 1),
    ?_, ?_, ?_, ?_⟩
  · unfold closestIdx
    rw [hemp]
    rfl
  · have := argminUpTo_le
      (fun k => ((distSq (nodes.getD k (0, 0)) node : ℤ) : ℚ)) (nodes.length - 1)
    omega
  · intro k hk
    have h := argminUpTo_min
      (fun k => ((distSq (nodes.getD k (0, 0)) node : ℤ) : ℚ)) (nodes.length - 1)
      k (by omega)
    beta_reduce at h
    exact_mod_cast h
  · intro k hk
    have h := argminUpTo_first
      (fun k => ((distSq (nodes.getD k (0, 0)) node : ℤ) : ℚ)) (nodes.length - 1)
      k hk
    beta_reduce at h
    exact_mod_cast h

/-- A terminal particle is skipped outright: `if i in self.particles_exited:
continue`. -/
theorem stepParticle_exited {W H : ℕ} (env : PEnv W H) (s : PState) (i : ℕ)
    (h : s.exited i = true) : stepParticle env s i = s := by
  unfold stepParticle
  rw [if_pos h]

/-- Processing particle `j` touches no per-particle data of a distinct
particle `i`. -/
theorem stepParticle_slot {W H : ℕ} (env : PEnv W H) (s : PState) (i j : ℕ)
    (hne : j ≠ i) :
    (stepParticle env s j).exited i = s.exited i
    ∧ (stepParticle env s j).locations i = s.locations i
    ∧ (∀ c2, (stepParticle env s j).infections c2 i = s.infections c2 i)
    ∧ (stepParticle env s j).removed i = s.removed i := by
  have hne2 : i ≠ j := Ne.symm hne
  by_cases h1 : s.exited j = true
  · simp [stepParticle, h1]
  · by_cases h2 : env.susceptible ((pyRound (s.locations j).1 : ℤ) : ZMod W)
        ((pyRound (s.locations j).2 : ℤ) : ZMod H) = true
    · cases hcl : closestIdx env.centroids
          (pyTrunc (s.locations j).1, pyTrunc (s.locations j).2) with
      | some cl => simp [stepParticle, h1, h2, hcl, hne2]
      | none => simp [stepParticle, h1, h2, hcl, hne2]
    · by_cases h3 : env.outlet ((pyRound (s.locations j).1 : ℤ) : ZMod W)
          ((pyRound (s.locations j).2 : ℤ) : ZMod H) = true
      · simp [stepParticle, h1, h2, h3, hne2]
      · simp [stepParticle, h1, h2, h3, hne2]

/-- Folding the particle loop over indices avoiding `i` preserves all of
particle `i`'s data. -/
theorem foldl_step_slot {W H : ℕ} (env : PEnv W H) (i : ℕ) :
    ∀ (l : List ℕ) (s : PState), i ∉ l →
      (l.foldl (stepParticle env) s).exited i = s.exited i
      ∧ (l.foldl (stepParticle env) s).locations i = s.locations i
      ∧ (∀ c2, (l.foldl (stepParticle env) s).infections c2 i = s.infections c2 i)
      ∧ (l.foldl (stepParticle env) s).removed i = s.removed i := by
  intro l
  induction l with
  | nil => exact fun s _ => ⟨rfl, rfl, fun _ => rfl, rfl⟩
  | cons a l ih =>
    intro s hmem
    have hia : i ≠ a := fun h => hmem (h ▸ List.mem_cons_self a l)
    have hil : i ∉ l := fun h => hmem (List.mem_cons_of_mem a h)
    obtain ⟨p1, p2, p3, p4⟩ := stepParticle_slot env s i a (Ne.symm hia)
    obtain ⟨q1, q2, q3, q4⟩ := ih (stepParticle env s a) hil
    exact ⟨q1.trans p1, q2.trans p2, fun c2 => (q3 c2).trans (p3 c2),
      q4.trans p4⟩

/-- Folding the particle loop over any index list keeps a terminal particle
terminal and leaves its data untouched. -/
theorem foldl_step_frozen {W H : ℕ} (env : PEnv W H) (i : ℕ) :
    ∀ (l : List ℕ) (s : PState), s.exited i = true →
      (l.foldl (stepParticle env) s).exited i = true
      ∧ (l.foldl (stepParticle env) s).locations i = s.locations i
      ∧ (∀ c2, (l.foldl (stepParticle env) s).infections c2 i = s.infections c2 i)
      ∧ (l.foldl (stepParticle env) s).removed i = s.removed i := by
  intro l
  induction l with
  | nil => exact fun s hex => ⟨hex, rfl, fun _ => rfl, rfl⟩
  | cons a l ih =>
    intro s hex
    by_cases ha : a = i
    · subst ha
      rw [List.foldl_cons, stepParticle_exited env s a hex]
      exact ih s hex
    · obtain ⟨p1, p2, p3, p4⟩ := stepParticle_slot env s i a ha
      obtain ⟨q1, q2, q3, q4⟩ := ih (stepParticle env s a) (p1.trans hex)
      exact ⟨q1, q2.trans p2, fun c2 => (q3 c2).trans (p3 c2), q4.trans p4⟩

/-- A spawn attempt never touches existing particles' data and never shrinks
`particle_nr`. -/
theorem spawnOne_slot {W H : ℕ} (env : PEnv W H) (r : ℕ) (s : PState) (i : ℕ)
    (hi : i < s.particle_nr) :
    s.particle_nr ≤ (spawnOne env r s).particle_nr
    ∧ (spawnOne env r s).exited = s.exited
    ∧ (spawnOne env r s).locations i = s.locations i
    ∧ (spawnOne env r s).infections = s.infections
    ∧ (spawnOne env r s).removed = s.removed := by
  by_cases hcap : s.particle_nr < env.num_particles ∧ infectedList env.infected ≠ []
  · have hneq : i ≠ s.particle_nr := Nat.ne_of_lt hi
    simp [spawnOne, hcap, hneq]
  · simp [spawnOne, hcap]

/-- The whole spawn phase never touches existing particles' data. -/
theorem spawnFold_slot {W H : ℕ} (env : PEnv W H) (rands : ℕ → ℕ) (i : ℕ) :
    ∀ (l : List ℕ) (s : PState), i < s.particle_nr →
      s.particle_nr ≤ (l.foldl (fun st j => spawnOne env (rands j) st) s).particle_nr
      ∧ (l.foldl (fun st j => spawnOne env (rands j) st) s).exited = s.exited
      ∧ (l.foldl (fun st j => spawnOne env (rands j) st) s).locations i = s.locations i
      ∧ (l.foldl (fun st j => spawnOne env (rands j) st) s).infections = s.infections
      ∧ (l.foldl (fun st j => spawnOne env (rands j) st) s).removed = s.removed := by
  intro l
  induction l with
  | nil => exact fun s _ => ⟨le_refl _, rfl, rfl, rfl, rfl⟩
  | cons a l ih =>
    intro s hi
    obtain ⟨p1, p2, p3, p4, p5⟩ := spawnOne_slot env (rands a) s i hi
    obtain ⟨q1, q2, q3, q4, q5⟩ := ih (spawnOne env (rands a) s)
      (lt_of_lt_of_le hi p1)
    exact ⟨le_trans p1 q1, q2.trans p2, q3.trans p3, q4.trans p4, q5.trans p5⟩

/-- The interception branch for particle `i`: increment the nearest
centroid's slot `(cl, i)` alone, mark `i` exited, move it to `(0, 0)`, and
leave `removed` untouched. -/
theorem stepParticle_intercept {W H : ℕ} (env : PEnv W H) (s : PState)
    (i cl : ℕ)
    (hex : s.exited i = false)
    (hsus : env.susceptible ((pyRound (s.locations i).1 : ℤ) : ZMod W)
      ((pyRound (s.locations i).2 : ℤ) : ZMod H) = true)
    (hcl : closestIdx env.centroids
      (pyTrunc (s.locations i).1, pyTrunc (s.locations i).2) = some cl) :
    (stepParticle env s i).infections cl i = s.infections cl i + 1
    ∧ (∀ c2 j, ¬(c2 = cl ∧ j = i) →
        (stepParticle env s i).infections c2 j = s.infections c2 j)
    ∧ (stepParticle env s i).removed = s.removed
    ∧ (stepParticle env s i).exited i = true
    ∧ (stepParticle env s i).locations i = (0, 0) := by
  refine ⟨?_, ?_, ?_, ?_, ?_⟩
  · simp [stepParticle, hex, hsus, hcl]
  · intro c2 j hnc
    simp only [stepParticle, hex, hsus, hcl, Bool.false_eq_true, if_false,
      if_true]
    rw [if_neg hnc]
  · simp [stepParticle, hex, hsus, hcl]
  · simp [stepParticle, hex, hsus, hcl]
  · simp [stepParticle, hex, hsus, hcl]

/-- The particle loop never changes `particle_nr`. -/
theorem stepParticle_nr {W H : ℕ} (env : PEnv W H) (s : PState) (i : ℕ) :
    (stepParticle env s i).particle_nr = s.particle_nr := by
  by_cases h1 : s.exited i = true
  · simp [stepParticle, h1]
  · by_cases h2 : env.susceptible ((pyRound (s.locations i).1 : ℤ) : ZMod W)
        ((pyRound (s.locations i).2 : ℤ) : ZMod H) = true
    · cases hcl : closestIdx env.centroids
          (pyTrunc (s.locations i).1, pyTrunc (s.locations i).2) with
      | some cl => simp [stepParticle, h1, h2, hcl]
      | none => simp [stepParticle, h1, h2, hcl]
    · by_cases h3 : env.outlet ((pyRound (s.locations i).1 : ℤ) : ZMod W)
          ((pyRound (s.locations i).2 : ℤ) : ZMod H) = true
      · simp [stepParticle, h1, h2, h3]
      · simp [stepParticle, h1, h2, h3]

theorem foldl_step_nr {W H : ℕ} (env : PEnv W H) :
    ∀ (l : List ℕ) (s : PState),
      (l.foldl (stepParticle env) s).particle_nr = s.particle_nr := by
  intro l
  induction l with
  | nil => exact fun _ => rfl
  | cons a l ih =>
    intro s
    rw [List.foldl_cons, ih, stepParticle_nr]

/-- One `update_particles` call keeps a terminal particle terminal and leaves
its data untouched; `particle_nr` never shrinks. -/
theorem update_particles_frozen {W H : ℕ} (env : PEnv W H) (rands : ℕ → ℕ)
    (it : ℕ) (s : PState) (i : ℕ)
    (hi : i < s.particle_nr) (hex : s.exited i = true) :
    (update_particles env rands it s).exited i = true
    ∧ (update_particles env rands it s).locations i = s.locations i
    ∧ (∀ c2, (update_particles env rands it s).infections c2 i = s.infections c2 i)
    ∧ (update_particles env rands it s).removed i = s.removed i
    ∧ i < (update_particles env rands it s).particle_nr := by
  have hs1 : s.particle_nr ≤ (spawnPhase env rands it s).particle_nr
      ∧ (spawnPhase env rands it s).exited = s.exited
      ∧ (spawnPhase env rands it s).locations i = s.locations i
      ∧ (spawnPhase env rands it s).infections = s.infections
      ∧ (spawnPhase env rands it s).removed = s.removed := by
    unfold spawnPhase
    by_cases hit : it % env.spawn_rate = 0
    · rw [if_pos hit]
      exact spawnFold_slot env rands i (List.range env.spawn_amount_at_rate) s hi
    · rw [if_neg hit]
      exact ⟨le_refl _, rfl, rfl, rfl, rfl⟩
  obtain ⟨p1, p2, p3, p4, p5⟩ := hs1
  obtain ⟨q1, q2, q3, q4⟩ := foldl_step_frozen env i
    (List.range (spawnPhase env rands it s).particle_nr)
    (spawnPhase env rands it s) (by rw [p2]; exact hex)
  have h5 := foldl_step_nr env
    (List.range (spawnPhase env rands it s).particle_nr)
    (spawnPhase env rands it s)
  exact ⟨q1, q2.trans p3, fun c2 => (q3 c2).trans (by rw [p4]),
    q4.trans (by rw [p5]), by unfold update_particles; omega⟩

/-- One `update_particles` call, for an active particle on a susceptible
cell: the interception effects at its slot. -/
theorem update_particles_intercept {W H : ℕ} (env : PEnv W H) (rands : ℕ → ℕ)
    (it : ℕ) (s : PState) (i cl : ℕ)
    (hi : i < s.particle_nr)
    (hex : s.exited i = false)
    (hsus : env.susceptible ((pyRound (s.locations i).1 : ℤ) : ZMod W)
      ((pyRound (s.locations i).2 : ℤ) : ZMod H) = true)
    (hcl : closestIdx env.centroids
      (pyTrunc (s.locations i).1, pyTrunc (s.locations i).2) = some cl) :
    (update_particles env rands it s).infections cl i = s.infections cl i + 1
    ∧ (∀ c2, c2 ≠ cl →
        (update_particles env rands it s).infections c2 i = s.infections c2 i)
    ∧ (update_particles env rands it s).removed i = s.removed i
    ∧ (update_particles env rands it s).exited i = true
    ∧ (update_particles env rands it s).locations i = (0, 0) := by
  have hs1 : s.particle_nr ≤ (spawnPhase env rands it s).particle_nr
      ∧ (spawnPhase env rands it s).exited = s.exited
      ∧ (spawnPhase env rands it s).locations i = s.locations i
      ∧ (spawnPhase env rands it s).infections = s.infections
      ∧ (spawnPhase env rands it s).removed = s.removed := by
    unfold spawnPhase
    by_cases hit : it % env.spawn_rate = 0
    · rw [if_pos hit]
      exact spawnFold_slot env rands i (List.range env.spawn_amount_at_rate) s hi
    · rw [if_neg hit]
      exact ⟨le_refl _, rfl, rfl, rfl, rfl⟩
  obtain ⟨p1, p2, p3, p4, p5⟩ := hs1
  have hi1 : i < (spawnPhase env rands it s).particle_nr := lt_of_lt_of_le hi p1
  have hstep : List.range (i + 1) = List.range i ++ [i] := by
    rw [Nat.add_one]
    exact List.range_succ i
  have hsplit : List.range (spawnPhase env rands it s).particle_nr
      = (List.range i ++ [i])
        ++ (List.range ((spawnPhase env rands it s).particle_nr - (i + 1))).map
            ((i + 1) + ·) := by
    rw [← hstep, ← List.range_add]
    congr 1
    omega
  unfold update_particles
  rw [hsplit, List.foldl_append, List.foldl_append]
  obtain ⟨a1, a2, a3, a4⟩ := foldl_step_slot env i (List.range i)
    (spawnPhase env rands it s) (by simp [List.mem_range])
  set sPre := (List.range i).foldl (stepParticle env) (spawnPhase env rands it s)
    with hsPre
  have hexPre : sPre.exited i = false := by
    rw [a1, p2]
    exact hex
  have hlocPre : sPre.locations i = s.locations i := by rw [a2, p3]
  have hsusPre : env.susceptible ((pyRound (sPre.locations i).1 : ℤ) : ZMod W)
      ((pyRound (sPre.locations i).2 : ℤ) : ZMod H) = true := by
    rw [hlocPre]
    exact hsus
  have hclPre : closestIdx env.centroids
      (pyTrunc (sPre.locations i).1, pyTrunc (sPre.locations i).2) = some cl := by
    rw [hlocPre]
    exact hcl
  obtain ⟨m1, m2, m3, m4, m5⟩ :=
    stepParticle_intercept env sPre i cl hexPre hsusPre hclPre
  obtain ⟨t1, t2, t3, t4⟩ := foldl_step_slot env i
    ((List.range ((spawnPhase env rands it s).particle_nr - (i + 1))).map
      ((i + 1) + ·))
    (stepParticle env sPre i)
    (by
      intro hmem
      obtain ⟨k, _, hk⟩ := List.mem_map.mp hmem
      omega)
  have hmid : List.foldl (stepParticle env) sPre [i] = stepParticle env sPre i :=
    rfl
  rw [hmid]
  refine ⟨?_, ?_, ?_, ?_, ?_⟩
  · rw [t3 cl, m1, a3 cl, p4]
  · intro c2 hc2
    rw [t3 c2, m2 c2 i (fun h => hc2 h.1), a3 c2, p4]
  · rw [t4, m3, a4, p5]
  · rw [t1, m4]
  · rw [t2, m5]

set_option maxHeartbeats 1000000 in
/-- C7: an Active particle whose current rounded cell is susceptible is,
before any advection, assigned to the nearest susceptible centroid by squared
Euclidean distance with ties to the first-found minimum; exactly that
centroid's counter slot of this particle gains 1, no other centroid slot and
no removed slot of it changes, and the particle becomes terminal with its
position rewritten to `(0, 0)`. -/
theorem intercept_nearest_centroid {W H : ℕ} (env : PEnv W H)
    (rands : ℕ → ℕ) (it : ℕ) (s : PState) (i : ℕ)
    (hc : env.centroids = susceptible_centroids)
    (hi : i < s.particle_nr)
    (hex : s.exited i = false)
    (hsus : env.susceptible ((pyRound (s.locations i).1 : ℤ) : ZMod W)
      ((pyRound (s.locations i).2 : ℤ) : ZMod H) = true) :
    ∃ cl,
      closestIdx env.centroids
        (pyTrunc (s.locations i).1, pyTrunc (s.locations i).2) = some cl
      ∧ cl < env.centroids.length
      ∧ (∀ k < env.centroids.length,
          distSq (env.centroids.getD cl (0, 0))
              (pyTrunc (s.locations i).1, pyTrunc (s.locations i).2)
            ≤ distSq (env.centroids.getD k (0, 0))
              (pyTrunc (s.locations i).1, pyTrunc (s.locations i).2))
      ∧ (∀ k < cl,
          distSq (env.centroids.getD cl (0, 0))
              (pyTrunc (s.locations i).1, pyTrunc (s.locations i).2)
            < distSq (env.centroids.getD k (0, 0))
              (pyTrunc (s.locations i).1, pyTrunc (s.locations i).2))
      ∧ (update_particles env rands it s).infections cl i = s.infections cl i + 1
      ∧ (∀ c2, c2 ≠ cl →
          (update_particles env rands it s).infections c2 i = s.infections c2 i)
      ∧ (update_particles env rands it s).removed i = s.removed i
      ∧ (update_particles env rands it s).exited i = true
      ∧ (update_particles env rands it s).locations i = (0, 0) := by
  have hne : env.centroids ≠ [] := by
    rw [hc]
    simp [susceptible_centroids]
  obtain ⟨cl, hcl, hlen, hmin, hfirst⟩ := closestIdx_spec env.centroids
    (pyTrunc (s.locations i).1, pyTrunc (s.locations i).2) hne
  obtain ⟨e1, e2, e3, e4, e5⟩ := update_particles_intercept env rands it s i cl
    hi hex hsus hcl
  exact ⟨cl, hcl, hlen, hmin, hfirst, e1, e2, e3, e4, e5⟩

/-- An environment whose every cell is marked susceptible, with the source's
hardcoded centroid list. -/
def interceptEnv : PEnv 2 2 where
  susceptible := fun _ _ => true
  outlet := fun _ _ => false
  infected := fun _ _ => true
  ux := fun _ _ => 0
  uy := fun _ _ => 0
  map_scaling_factor := 1
  spawn_rate := 20
  spawn_amount_at_rate := 1
  num_particles := 1
  centroids := susceptible_centroids

/-- A single active particle at the origin. -/
def activeParticle : PState where
  locations := fun _ => (0, 0)
  particle_nr := 1
  exited := fun _ => false
  infections := fun _ _ => 0
  removed := fun _ => 0

set_option maxRecDepth 100000 in
/-- Witness for C7 at a concrete environment and particle. -/
theorem intercept_nearest_centroid_witness :
    interceptEnv.centroids = susceptible_centroids
    ∧ 0 < activeParticle.particle_nr
    ∧ activeParticle.exited 0 = false
    ∧ interceptEnv.susceptible
        ((pyRound (activeParticle.locations 0).1 : ℤ) : ZMod 2)
        ((pyRound (activeParticle.locations 0).2 : ℤ) : ZMod 2) = true
    ∧ ∃ cl,
        closestIdx interceptEnv.centroids
          (pyTrunc (activeParticle.locations 0).1,
            pyTrunc (activeParticle.locations 0).2) = some cl
        ∧ cl < interceptEnv.centroids.length
        ∧ (∀ k < interceptEnv.centroids.length,
            distSq (interceptEnv.centroids.getD cl (0, 0))
                (pyTrunc (activeParticle.locations 0).1,
                  pyTrunc (activeParticle.locations 0).2)
              ≤ distSq (interceptEnv.centroids.getD k (0, 0))
                (pyTrunc (activeParticle.locations 0).1,
                  pyTrunc (activeParticle.locations 0).2))
        ∧ (∀ k < cl,
            distSq (interceptEnv.centroids.getD cl (0, 0))
                (pyTrunc (activeParticle.locations 0).1,
                  pyTrunc (activeParticle.locations 0).2)
              < distSq (interceptEnv.centroids.getD k (0, 0))
                (pyTrunc (activeParticle.locations 0).1,
                  pyTrunc (activeParticle.locations 0).2))
        ∧ (update_particles interceptEnv (fun _ => 0) 1 activeParticle).infections cl 0
            = activeParticle.infections cl 0 + 1
        ∧ (∀ c2, c2 ≠ cl →
            (update_particles interceptEnv (fun _ => 0) 1 activeParticle).infections c2 0
              = activeParticle.infections c2 0)
        ∧ (update_particles interceptEnv (fun _ => 0) 1 activeParticle).removed 0
            = activeParticle.removed 0
        ∧ (update_particles interceptEnv (fun _ => 0) 1 activeParticle).exited 0 = true
        ∧ (update_particles interceptEnv (fun _ => 0) 1 activeParticle).locations 0
            = (0, 0) :=
  ⟨rfl, Nat.one_pos, rfl, rfl,
    intercept_nearest_centroid interceptEnv (fun _ => 0) 1 activeParticle 0
      rfl Nat.one_pos rfl rfl⟩

/-- C8: a terminal (Intercepted or Exited) spawned particle never re-enters
the Active state: every later `update_particles` call skips it — its position
is never modified again and none of its infection or removed counter slots
ever changes again. -/
theorem terminal_particle_stays_frozen {W H : ℕ} (env : PEnv W H)
    (rr : ℕ → ℕ → ℕ) (k : ℕ) :
    ∀ (s : PState) (it0 i : ℕ), i < s.particle_nr → s.exited i = true →
      (runParticles env rr s it0 k).exited i = true
      ∧ (runParticles env rr s it0 k).locations i = s.locations i
      ∧ (∀ c2, (runParticles env rr s it0 k).infections c2 i = s.infections c2 i)
      ∧ (runParticles env rr s it0 k).removed i = s.removed i := by
  induction k with
  | zero => exact fun s it0 i hi hex => ⟨hex, rfl, fun _ => rfl, rfl⟩
  | succ k ih =>
    intro s it0 i hi hex
    obtain ⟨f1, f2, f3, f4, f5⟩ :=
      update_particles_frozen env (rr it0) it0 s i hi hex
    obtain ⟨g1, g2, g3, g4⟩ :=
      ih (update_particles env (rr it0) it0 s) (it0 + 1) i f5 f1
    exact ⟨g1, g2.trans f2, fun c2 => (g3 c2).trans (f3 c2), g4.trans f4⟩

/-- A single already-terminal particle. -/
def frozenParticle : PState where
  locations := fun _ => (1, 1)
  particle_nr := 1
  exited := fun _ => true
  infections := fun _ _ => 0
  removed := fun _ => 0

/-- Witness for C8: three further calls leave the terminal particle frozen. -/
theorem terminal_particle_stays_frozen_witness :
    0 < frozenParticle.particle_nr
    ∧ frozenParticle.exited 0 = true
    ∧ ((runParticles interceptEnv (fun _ _ => 0) frozenParticle 0 3).exited 0 = true
      ∧ (runParticles interceptEnv (fun _ _ => 0) frozenParticle 0 3).locations 0
          = frozenParticle.locations 0
      ∧ (∀ c2, (runParticles interceptEnv (fun _ _ => 0) frozenParticle 0 3).infections c2 0
          = frozenParticle.infections c2 0)
      ∧ (runParticles interceptEnv (fun _ _ => 0) frozenParticle 0 3).removed 0
          = frozenParticle.removed 0) :=
  ⟨Nat.one_pos, rfl,
    terminal_particle_stays_frozen interceptEnv (fun _ _ => 0) 3 frozenParticle
      0 0 Nat.one_pos rfl⟩

/-!
## Missing-centroid interception (C9) and position bounds (C10)
-/

/-- An environment with susceptible cells but no centroids configured. -/
def emptyCentroidEnv : PEnv 2 2 where
  susceptible := fun _ _ => true
  outlet := fun _ _ => false
  infected := fun _ _ => false
  ux := fun _ _ => 0
  uy := fun _ _ => 0
  map_scaling_factor := 1
  spawn_rate := 20
  spawn_amount_at_rate := 1
  num_particles := 1
  centroids := []

set_option maxRecDepth 200000 in
/-- C9 (evaluating the code at the failing input): with susceptible cells but
no centroids, the nearest-centroid lookup fails (`closestIdx = none`, the
swallowed `np.argmin` exception), yet `update_particles` still marks the
particle terminal while incrementing no infection and no removed counter and
producing no report of any kind — the interception event is silently
dropped, contradicting the required explicit "unresolved" outcome. -/
theorem silent_drop_on_missing_centroids :
    closestIdx emptyCentroidEnv.centroids
        (pyTrunc (activeParticle.locations 0).1,
          pyTrunc (activeParticle.locations 0).2) = none
    ∧ (update_particles emptyCentroidEnv (fun _ => 0) 1 activeParticle).exited 0
        = true
    ∧ (∀ c2 j,
        (update_particles emptyCentroidEnv (fun _ => 0) 1 activeParticle).infections c2 j
          = activeParticle.infections c2 j)
    ∧ (∀ j,
        (update_particles emptyCentroidEnv (fun _ => 0) 1 activeParticle).removed j
          = activeParticle.removed j) := by
  refine ⟨by with_unfolding_all rfl, by with_unfolding_all rfl, ?_, ?_⟩
  · intro c2 j
    with_unfolding_all rfl
  · intro j
    with_unfolding_all rfl

/-- A particle position lies in the clamped domain `[0, W-1] × [0, H-1]`. -/
def inBounds (W H : ℕ) (p : ℚ × ℚ) : Prop :=
  0 ≤ p.1 ∧ p.1 ≤ (W : ℚ) - 1 ∧ 0 ≤ p.2 ∧ p.2 ≤ (H : ℚ) - 1

theorem inBounds_zero {W H : ℕ} (hW : 1 ≤ W) (hH : 1 ≤ H) :
    inBounds W H ((0 : ℚ), (0 : ℚ)) := by
  have h1 : (1 : ℚ) ≤ (W : ℚ) := by exact_mod_cast hW
  have h2 : (1 : ℚ) ≤ (H : ℚ) := by exact_mod_cast hH
  exact ⟨le_refl 0, by show (0 : ℚ) ≤ (W : ℚ) - 1; linarith, le_refl 0,
    by show (0 : ℚ) ≤ (H : ℚ) - 1; linarith⟩

theorem inBounds_clamp {W H : ℕ} (hW : 1 ≤ W) (hH : 1 ≤ H) (a b : ℚ) :
    inBounds W H
      (min (max 0 a) ((W : ℚ) - 1), min (max 0 b) ((H : ℚ) - 1)) := by
  have h1 : (1 : ℚ) ≤ (W : ℚ) := by exact_mod_cast hW
  have h2 : (1 : ℚ) ≤ (H : ℚ) := by exact_mod_cast hH
  refine ⟨le_min (le_max_left 0 a) (by linarith), min_le_right _ _,
    le_min (le_max_left 0 b) (by linarith), min_le_right _ _⟩

theorem inBounds_val {W H : ℕ} [NeZero W] [NeZero H] (p : ZMod W × ZMod H) :
    inBounds W H ((p.1.val : ℚ), (p.2.val : ℚ)) := by
  have h1 : p.1.val < W := ZMod.val_lt p.1
  have h2 : p.2.val < H := ZMod.val_lt p.2
  refine ⟨by positivity, ?_, by positivity, ?_⟩
  · have : (p.1.val : ℚ) + 1 ≤ (W : ℚ) := by exact_mod_cast h1
    linarith
  · have : (p.2.val : ℚ) + 1 ≤ (H : ℚ) := by exact_mod_cast h2
    linarith

/-- The particle loop writes a slot's location only as a clamped advection
target or as the terminal point `(0, 0)`. -/
theorem stepParticle_locations_cases {W H : ℕ} (env : PEnv W H) (s : PState)
    (i j : ℕ) :
    (stepParticle env s i).locations j = s.locations j
    ∨ (stepParticle env s i).locations j = (0, 0)
    ∨ ∃ a b, (stepParticle env s i).locations j
        = (min (max 0 a) ((W : ℚ) - 1), min (max 0 b) ((H : ℚ) - 1)) := by
  by_cases h1 : s.exited i = true
  · exact Or.inl (by simp [stepParticle, h1])
  · by_cases h2 : env.susceptible ((pyRound (s.locations i).1 : ℤ) : ZMod W)
        ((pyRound (s.locations i).2 : ℤ) : ZMod H) = true
    · by_cases hji : j = i
      · subst hji
        cases hcl : closestIdx env.centroids
            (pyTrunc (s.locations j).1, pyTrunc (s.locations j).2) with
        | some cl => exact Or.inr (Or.inl (by simp [stepParticle, h1, h2, hcl]))
        | none => exact Or.inr (Or.inl (by simp [stepParticle, h1, h2, hcl]))
      · cases hcl : closestIdx env.centroids
            (pyTrunc (s.locations i).1, pyTrunc (s.locations i).2) with
        | some cl => exact Or.inl (by simp [stepParticle, h1, h2, hcl, hji])
        | none => exact Or.inl (by simp [stepParticle, h1, h2, hcl, hji])
    · by_cases h3 : env.outlet ((pyRound (s.locations i).1 : ℤ) : ZMod W)
          ((pyRound (s.locations i).2 : ℤ) : ZMod H) = true
      · by_cases hji : j = i
        · subst hji
          exact Or.inr (Or.inl (by simp [stepParticle, h1, h2, h3]))
        · exact Or.inl (by simp [stepParticle, h1, h2, h3, hji])
      · by_cases hji : j = i
        · subst hji
          refine Or.inr (Or.inr ⟨(s.locations j).1 + env.map_scaling_factor
              * interp env.ux (s.locations j).1 (s.locations j).2,
            (s.locations j).2 + env.map_scaling_factor
              * interp env.uy (s.locations j).1 (s.locations j).2, ?_⟩)
          simp [stepParticle, h1, h2, h3]
        · exact Or.inl (by simp [stepParticle, h1, h2, h3, hji])

/-- A spawn attempt writes a slot's location only as an infected cell's
integer coordinates. -/
theorem spawnOne_locations_cases {W H : ℕ} (env : PEnv W H) (r : ℕ)
    (s : PState) (j : ℕ) :
    (spawnOne env r s).locations j = s.locations j
    ∨ ∃ p : ZMod W × ZMod H,
        (spawnOne env r s).locations j = ((p.1.val : ℚ), (p.2.val : ℚ)) := by
  by_cases hcap : s.particle_nr < env.num_particles
      ∧ infectedList env.infected ≠ []
  · by_cases hj : j = s.particle_nr
    · subst hj
      exact Or.inr ⟨(infectedList env.infected).getD
        (r % (infectedList env.infected).length) (0, 0),
        by simp [spawnOne, hcap]⟩
    · exact Or.inl (by simp [spawnOne, hcap, hj])
  · exact Or.inl (by simp [spawnOne, hcap])

theorem foldl_step_inBounds {W H : ℕ} (env : PEnv W H) (hW : 1 ≤ W)
    (hH : 1 ≤ H) :
    ∀ (l : List ℕ) (s : PState), (∀ j, inBounds W H (s.locations j)) →
      ∀ j, inBounds W H ((l.foldl (stepParticle env) s).locations j) := by
  intro l
  induction l with
  | nil => exact fun s hs => hs
  | cons a l ih =>
    intro s hs
    refine ih (stepParticle env s a) fun j => ?_
    rcases stepParticle_locations_cases env s a j with h | h | ⟨x, y, h⟩
    · rw [h]; exact hs j
    · rw [h]; exact inBounds_zero hW hH
    · rw [h]; exact inBounds_clamp hW hH x y

theorem foldl_spawn_inBounds {W H : ℕ} [NeZero W] [NeZero H] (env : PEnv W H)
    (rands : ℕ → ℕ) :
    ∀ (l : List ℕ) (s : PState), (∀ j, inBounds W H (s.locations j)) →
      ∀ j, inBounds W H
        ((l.foldl (fun st k => spawnOne env (rands k) st) s).locations j) := by
  intro l
  induction l with
  | nil => exact fun s hs => hs
  | cons a l ih =>
    intro s hs
    refine ih (spawnOne env (rands a) s) fun j => ?_
    rcases spawnOne_locations_cases env (rands a) s j with h | ⟨p, h⟩
    · rw [h]; exact hs j
    · rw [h]; exact inBounds_val p

/-- `pyRound` and `⌊·⌋` of an in-bounds coordinate are valid grid indices. -/
theorem pyRound_range (q : ℚ) (n : ℤ) (h0 : 0 ≤ q) (h1 : q ≤ (n : ℚ) - 1) :
    0 ≤ pyRound q ∧ pyRound q ≤ n - 1 ∧ 0 ≤ ⌊q⌋ ∧ ⌊q⌋ ≤ n - 1 := by
  have hfl0 : 0 ≤ ⌊q⌋ := Int.le_floor.mpr (by exact_mod_cast h0)
  have hfl1 : ⌊q⌋ ≤ n - 1 := by
    have h := le_trans (Int.floor_le q) h1
    have h2 : (⌊q⌋ : ℚ) ≤ ((n - 1 : ℤ) : ℚ) := by push_cast; linarith
    exact_mod_cast h2
  have hfr : ∀ hlow : ¬ Int.fract q < 1/2, (⌊q⌋ : ℚ) < q := by
    intro hlow
    have hpos : 0 < Int.fract q := lt_of_lt_of_le (by norm_num) (not_lt.mp hlow)
    have hq := Int.floor_add_fract q
    linarith
  have hsucc : ∀ hlow : ¬ Int.fract q < 1/2, ⌊q⌋ + 1 ≤ n - 1 := by
    intro hlow
    have hlt : (⌊q⌋ : ℚ) < ((n - 1 : ℤ) : ℚ) := by
      have := hfr hlow
      push_cast
      linarith
    have : ⌊q⌋ < n - 1 := by exact_mod_cast hlt
    omega
  unfold pyRound
  split_ifs with hf1 hf2 hdvd
  · exact ⟨hfl0, hfl1, hfl0, hfl1⟩
  · exact ⟨by omega, hsucc hf1, hfl0, hfl1⟩
  · exact ⟨hfl0, hfl1, hfl0, hfl1⟩
  · exact ⟨by omega, hsucc hf1, hfl0, hfl1⟩

set_option maxHeartbeats 1000000 in
/-- C10: positions of all particle slots stay inside
`[0, width-1] × [0, height-1]` across a call of `update_particles` — spawning
writes in-bounds infected cell coordinates, advection clamps, terminal
resolution writes `(0, 0)` — and the rounded or floored coordinates of an
in-bounds position are valid grid indices for the mask lookups and the
bilinear interpolation. -/
theorem particle_positions_stay_in_bounds {W H : ℕ} [NeZero W] [NeZero H]
    (env : PEnv W H) (rands : ℕ → ℕ) (it : ℕ) (s : PState)
    (hs : ∀ j, inBounds W H (s.locations j)) :
    (∀ j, inBounds W H ((update_particles env rands it s).locations j))
    ∧ (∀ (n : ℕ) (q : ℚ), 0 ≤ q → q ≤ (n : ℚ) - 1 →
        0 ≤ pyRound q ∧ pyRound q ≤ (n : ℤ) - 1
        ∧ 0 ≤ ⌊q⌋ ∧ ⌊q⌋ ≤ (n : ℤ) - 1) := by
  have hW : 1 ≤ W := Nat.pos_of_ne_zero (NeZero.ne W)
  have hH : 1 ≤ H := Nat.pos_of_ne_zero (NeZero.ne H)
  constructor
  · intro j
    unfold update_particles
    refine foldl_step_inBounds env hW hH _ (spawnPhase env rands it s) ?_ j
    intro j2
    unfold spawnPhase
    by_cases hit : it % env.spawn_rate = 0
    · rw [if_pos hit]
      exact foldl_spawn_inBounds env rands _ s hs j2
    · rw [if_neg hit]
      exact hs j2
  · intro n q h0 h1
    exact pyRound_range q (n : ℤ) h0 (by push_cast at h1 ⊢; linarith)

set_option maxRecDepth 100000 in
/-- Witness for C10 at a concrete environment and particle state. -/
theorem particle_positions_stay_in_bounds_witness :
    (∀ j, inBounds 2 2 (activeParticle.locations j))
    ∧ ((∀ j, inBounds 2 2
          ((update_particles interceptEnv (fun _ => 1) 0 activeParticle).locations j))
      ∧ (∀ (n : ℕ) (q : ℚ), 0 ≤ q → q ≤ (n : ℚ) - 1 →
          0 ≤ pyRound q ∧ pyRound q ≤ (n : ℤ) - 1
          ∧ 0 ≤ ⌊q⌋ ∧ ⌊q⌋ ≤ (n : ℤ) - 1)) :=
  ⟨fun j => by norm_num [inBounds, activeParticle],
    particle_positions_stay_in_bounds interceptEnv (fun _ => 1) 0 activeParticle
      (fun j => by norm_num [inBounds, activeParticle])⟩
